/-
Verification of the deep-research repository's core algorithms:
the token-budget text trimmer (`trimPrompt` in src/prompt.ts) and the
recursive research orchestration engine (`deepResearch`,
`processSingleSerpQuery` in src/deep-research.ts).

Texts are modelled as `List Char` (JavaScript strings are sequences of
code units; none of the verified properties depend on the encoding).
The tokenizer (`js-tiktoken`, an external npm dependency) is abstracted
as a parameter `tok : List Char → Nat`, following the spec's own design
note that the trimmer must be independent of which tokenizer is plugged
in.  The recursive character text splitter (`./ai/text-splitter`, a file
of this repository that is not part of the provided sources) is modelled
from the spec, see `splitText` below.
-/
import Mathlib

set_option autoImplicit false

/-- Character-sequence model of a JavaScript string. -/
abbrev Text := List Char

/-- `MinChunkSize` from src/prompt.ts: the 140-character hard floor. -/
def MinChunkSize : Nat := 140

/-! ### The recursive character text splitter, modelled from the spec

Modelled from the spec: the repository imports
`RecursiveCharacterTextSplitter` from `./ai/text-splitter`, which is not
among the provided source files.  Per spec §4.1 the splitter "splits text
into chunks targeting `targetChars` per chunk using a recursive,
separator-aware splitter (tries paragraph breaks, then line breaks, then
sentence breaks, then raw character cuts, in that priority order, so
semantic boundaries are preferred over mid-word cuts) with zero overlap
between chunks".  The model below: choose the highest-priority separator
occurring in the text, split on it, pack consecutive splits greedily into
chunks of at most `chunkSize` characters (joined back with the separator,
zero overlap), and recursively re-split any single split that is itself
at least `chunkSize` long.  Recursion is expressed with an explicit fuel
argument so that the definitions compute; `trimPrompt` supplies fuel
`t.length + 1`, which is enough for every input it can send (each
recursive level works on a strictly shorter text). -/

/-- Paragraph-break separator. -/
def parSep : Text := ['\n', '\n']

/-- Line-break separator. -/
def lineSep : Text := ['\n']

/-- Sentence-break separator. -/
def sentSep : Text := ['.']

/-- Does `sep` occur as a contiguous run inside `t`? -/
def containsL (sep : Text) : Text → Bool
  | [] => sep.isEmpty
  | c :: rest => decide (sep <+: (c :: rest)) || containsL sep rest

/-- First separator of the priority list occurring in `t`; `[]` means
raw character cuts. -/
def chooseSeparator (t : Text) : Text :=
  if containsL parSep t then parSep
  else if containsL lineSep t then lineSep
  else if containsL sentSep t then sentSep
  else []

/-- Split on a (non-empty) separator, like JavaScript `t.split(sep)`.
The fuel is at least `t.length` at every call site, which makes the
fuel-exhaustion case unreachable. -/
def splitOnFuel (sep : Text) : Nat → Text → List Text
  | _, [] => [[]]
  | 0, t => [t]
  | fuel + 1, c :: rest =>
    if sep ≠ [] ∧ sep <+: (c :: rest) then
      [] :: splitOnFuel sep fuel ((c :: rest).drop sep.length)
    else
      match splitOnFuel sep fuel rest with
      | [] => [[c]]
      | p :: ps => (c :: p) :: ps

/-- JavaScript `t.split(sep)` for non-empty `sep`. -/
def splitOnL (sep : Text) (t : Text) : List Text :=
  splitOnFuel sep t.length t

/-- Raw character cuts: one split per character. -/
def charSplits (t : Text) : List Text :=
  t.map (fun c => [c])

/-- The splits of `t` for the chosen separator (`[]` = character cuts). -/
def rawSplits (sep : Text) (t : Text) : List Text :=
  if sep = [] then charSplits t else splitOnL sep t

/-- Join a run of splits back together with the separator between them. -/
def joinSep (sep : Text) : List Text → Text
  | [] => []
  | [d] => d
  | d :: e :: ds => d ++ sep ++ joinSep sep (e :: ds)

/-- Emit the pending run as one chunk (no chunk if the join is empty). -/
def pushJoin (sep : Text) (cd : List Text) : List Text :=
  match joinSep sep cd with
  | [] => []
  | c :: cs => [c :: cs]

/-- Greedy zero-overlap packing of splits into chunks of at most
`chunkSize` characters: `cd` is the pending run, `total` its joined
length so far. -/
def mergeAux (chunkSize : Nat) (sep : Text) : List Text → List Text → Nat → List Text
  | [], cd, _ => pushJoin sep cd
  | d :: ds, cd, total =>
    let extra := if cd = [] then 0 else sep.length
    if chunkSize < total + d.length + extra then
      pushJoin sep cd ++ mergeAux chunkSize sep ds [d] d.length
    else
      mergeAux chunkSize sep ds (cd ++ [d]) (total + d.length + extra)

/-- Pack a list of splits into chunks. -/
def mergeSplits (chunkSize : Nat) (sep : Text) (splits : List Text) : List Text :=
  mergeAux chunkSize sep splits [] 0

/-- Walk the splits: accumulate short splits into `good`, and for a split
at least `chunkSize` long, flush the accumulated run and re-split the long
split recursively (via `st`, the next-level splitter). -/
def splitLoop (st : Text → List Text) (chunkSize : Nat) (sep : Text) :
    List Text → List Text → List Text
  | [], good => mergeSplits chunkSize sep good
  | d :: ds, good =>
    if d.length < chunkSize then
      splitLoop st chunkSize sep ds (good ++ [d])
    else
      mergeSplits chunkSize sep good ++ st d ++ splitLoop st chunkSize sep ds []

/-- The recursive character text splitter (fuel-indexed). -/
def splitText (chunkSize : Nat) : Nat → Text → List Text
  | 0 => fun t => [t]
  | fuel + 1 => fun t =>
    let sep := chooseSeparator t
    splitLoop (splitText chunkSize fuel) chunkSize sep (rawSplits sep t) []

/-! ### trimPrompt (src/prompt.ts), faithful to the source

The body below mirrors the source line by line:

```
if (!prompt) return '';
const length = encoder.encode(prompt).length;
if (length <= contextSize) return prompt;
const overflowTokens = length - contextSize;
const chunkSize = prompt.length - overflowTokens * 3;
if (chunkSize < MinChunkSize) return prompt.slice(0, MinChunkSize);
const splitter = new RecursiveCharacterTextSplitter({chunkSize, chunkOverlap: 0});
const trimmedPrompt = splitter.splitText(prompt)[0] ?? '';
if (trimmedPrompt.length === prompt.length)
  return trimPrompt(prompt.slice(0, chunkSize), contextSize);
return trimPrompt(trimmedPrompt, contextSize);
```

(`chunkSize` can be negative in JavaScript; every negative value takes the
`chunkSize < MinChunkSize` branch, exactly as the truncated `Nat`
subtraction does here.)  `trimPromptFuel` is the fuel-indexed version used
for computation; `trimPromptRec` below is defined by well-founded
recursion on the input length — its acceptance by the termination checker
is the formal witness that each recursive call strictly shrinks the
input — and the two are proved equal. -/

/-- Fuel-indexed `trimPrompt`; fuel `prompt.length + 1` always suffices.
The source's `const` bindings (`length`, `overflowTokens = length -
contextSize`, `chunkSize = prompt.length - overflowTokens * 3`,
`trimmedPrompt = splitter.splitText(prompt)[0] ?? ''`) are inlined. -/
def trimPromptFuel (tok : Text → Nat) : Nat → Text → Nat → Text
  | 0 => fun prompt _ => prompt
  | fuel + 1 => fun prompt contextSize =>
    if prompt = [] then []
    else if tok prompt ≤ contextSize then prompt
    else if prompt.length - (tok prompt - contextSize) * 3 < MinChunkSize then
      prompt.take MinChunkSize
    else if ((splitText (prompt.length - (tok prompt - contextSize) * 3)
        (prompt.length + 1) prompt).headD []).length = prompt.length then
      trimPromptFuel tok fuel (prompt.take (prompt.length - (tok prompt - contextSize) * 3))
        contextSize
    else
      trimPromptFuel tok fuel
        ((splitText (prompt.length - (tok prompt - contextSize) * 3)
          (prompt.length + 1) prompt).headD []) contextSize

/-- `trimPrompt(prompt, contextSize)` from src/prompt.ts, with the
tokenizer abstracted as `tok`. -/
def trimPrompt (tok : Text → Nat) (prompt : Text) (contextSize : Nat) : Text :=
  trimPromptFuel tok (prompt.length + 1) prompt contextSize

/-! ### Splitter chunk-length bound -/

theorem joinSep_cons (sep : Text) (d : Text) (ds : List Text) :
    joinSep sep (d :: ds) = d ++ (if ds = [] then [] else sep ++ joinSep sep ds) := by
  cases ds <;> simp [joinSep]

theorem length_joinSep_le_append_left (sep : Text) (ds es : List Text) :
    (joinSep sep ds).length ≤ (joinSep sep (ds ++ es)).length := by
  induction ds with
  | nil => simp [joinSep]
  | cons d ds ih =>
    rw [List.cons_append, joinSep_cons, joinSep_cons]
    by_cases hds : ds = []
    · subst hds
      by_cases hes : es = [] <;> simp [hes]
    · have hne : ds ++ es ≠ [] := by simp [hds]
      simp only [hds, hne, if_neg, if_false]
      simp only [List.length_append]
      omega

theorem length_joinSep_le_append_right (sep : Text) (ds es : List Text) :
    (joinSep sep es).length ≤ (joinSep sep (ds ++ es)).length := by
  induction ds with
  | nil => simp
  | cons d ds ih =>
    rw [List.cons_append, joinSep_cons]
    by_cases hne : ds ++ es = []
    · rcases List.append_eq_nil.mp hne with ⟨h1, h2⟩
      subst h2; simp [joinSep]
    · simp only [hne, if_neg, if_false]
      simp only [List.length_append]
      omega

theorem length_le_joinSep_of_mem (sep : Text) :
    ∀ {ds : List Text} {x : Text}, x ∈ ds → x.length ≤ (joinSep sep ds).length := by
  intro ds
  induction ds with
  | nil => intro x h; cases h
  | cons d ds ih =>
    intro x h
    rcases List.mem_cons.mp h with rfl | h
    · rw [joinSep_cons]
      by_cases hds : ds = [] <;> simp [hds]
    · calc x.length ≤ (joinSep sep ds).length := ih h
        _ ≤ (joinSep sep ([d] ++ ds)).length := length_joinSep_le_append_right sep [d] ds

theorem splitOnFuel_ne_nil (sep : Text) (fuel : Nat) (t : Text) :
    splitOnFuel sep fuel t ≠ [] := by
  match fuel, t with
  | _, [] => simp [splitOnFuel]
  | 0, _ :: _ => simp [splitOnFuel]
  | fuel + 1, c :: rest =>
    rw [splitOnFuel]
    split
    · simp
    · split <;> simp

theorem length_joinSep_splitOnFuel (sep : Text) :
    ∀ (fuel : Nat) (t : Text),
      (joinSep sep (splitOnFuel sep fuel t)).length = t.length := by
  intro fuel
  induction fuel with
  | zero =>
    intro t
    cases t <;> simp [splitOnFuel, joinSep]
  | succ fuel ih =>
    intro t
    match t with
    | [] => simp [splitOnFuel, joinSep]
    | c :: rest =>
      rw [splitOnFuel]
      split
      · rename_i h
        obtain ⟨hne, hpre⟩ := h
        obtain ⟨u, hu⟩ := hpre
        have hdrop : (c :: rest).drop sep.length = u := by
          rw [← hu, List.drop_left]
        rw [joinSep_cons, if_neg (splitOnFuel_ne_nil sep fuel _)]
        simp only [List.nil_append, List.length_append]
        rw [ih, hdrop, ← hu]
        simp [List.length_append]
      · rename_i hcond
        rcases hS : splitOnFuel sep fuel rest with _ | ⟨p, ps⟩
        · exact absurd hS (splitOnFuel_ne_nil sep fuel rest)
        · have hrest : (joinSep sep (p :: ps)).length = rest.length := by
            rw [← hS]; exact ih rest
          show (joinSep sep ((c :: p) :: ps)).length = (c :: rest).length
          rw [joinSep_cons] at hrest ⊢
          cases ps with
          | nil =>
            simp at hrest ⊢
            omega
          | cons q qs =>
            simp only [if_neg (List.cons_ne_nil q qs), List.length_append,
              List.length_cons] at hrest ⊢
            omega

theorem length_joinSep_charSplits (t : Text) :
    (joinSep [] (charSplits t)).length = t.length := by
  induction t with
  | nil => simp [charSplits, joinSep]
  | cons c rest ih =>
    show (joinSep [] ([c] :: charSplits rest)).length = rest.length + 1
    rw [joinSep_cons]
    cases hrest : charSplits rest with
    | nil =>
      have hr : rest = [] := by
        cases rest with
        | nil => rfl
        | cons a as => simp [charSplits] at hrest
      subst hr; simp
    | cons p ps =>
      rw [hrest] at ih
      rw [if_neg (List.cons_ne_nil p ps)]
      simp only [List.length_append, List.nil_append, List.length_singleton] at ih ⊢
      omega

theorem length_joinSep_rawSplits (sep t : Text) (hsep : sep = chooseSeparator t) :
    (joinSep sep (rawSplits sep t)).length = t.length := by
  by_cases h : sep = []
  · subst h
    simp [rawSplits, length_joinSep_charSplits]
  · simp only [rawSplits, if_neg h, splitOnL]
    exact length_joinSep_splitOnFuel sep t.length t

theorem mergeAux_chunk_le (chunkSize : Nat) (sep : Text) :
    ∀ (splits cd : List Text) (total : Nat) (c : Text),
      c ∈ mergeAux chunkSize sep splits cd total →
      c.length ≤ (joinSep sep (cd ++ splits)).length := by
  intro splits
  induction splits with
  | nil =>
    intro cd total c hc
    simp only [mergeAux, pushJoin] at hc
    split at hc
    · cases hc
    · rename_i heq
      rw [List.mem_singleton] at hc
      subst hc
      rw [List.append_nil, heq]
  | cons d ds ih =>
    intro cd total c hc
    simp only [mergeAux] at hc
    by_cases hov : chunkSize < total + d.length + (if cd = [] then 0 else sep.length)
    · rw [if_pos hov] at hc
      rcases List.mem_append.mp hc with h | h
      · simp only [pushJoin] at h
        split at h
        · cases h
        · rename_i heq
          rw [List.mem_singleton] at h
          subst h
          rw [← heq]
          exact length_joinSep_le_append_left sep cd (d :: ds)
      · calc c.length ≤ (joinSep sep ([d] ++ ds)).length := ih [d] d.length c h
          _ ≤ (joinSep sep (cd ++ ([d] ++ ds))).length :=
              length_joinSep_le_append_right sep cd ([d] ++ ds)
          _ = (joinSep sep (cd ++ d :: ds)).length := by simp
    · rw [if_neg hov] at hc
      have := ih (cd ++ [d]) _ c hc
      rwa [List.append_assoc, List.singleton_append] at this

theorem mergeSplits_chunk_le (chunkSize : Nat) (sep : Text) (splits : List Text)
    (c : Text) (hc : c ∈ mergeSplits chunkSize sep splits) :
    c.length ≤ (joinSep sep splits).length := by
  have := mergeAux_chunk_le chunkSize sep splits [] 0 c hc
  simpa using this

theorem splitLoop_chunk_le (st : Text → List Text) (chunkSize : Nat) (sep : Text)
    (hst : ∀ s c, c ∈ st s → c.length ≤ s.length) :
    ∀ (splits good : List Text) (c : Text),
      c ∈ splitLoop st chunkSize sep splits good →
      c.length ≤ (joinSep sep (good ++ splits)).length := by
  intro splits
  induction splits with
  | nil =>
    intro good c hc
    simpa using mergeSplits_chunk_le chunkSize sep good c hc
  | cons d ds ih =>
    intro good c hc
    simp only [splitLoop] at hc
    split at hc
    · have := ih (good ++ [d]) c hc
      rwa [List.append_assoc, List.singleton_append] at this
    · rcases List.mem_append.mp hc with h | h
      · rcases List.mem_append.mp h with h | h
        · calc c.length ≤ (joinSep sep good).length :=
                mergeSplits_chunk_le chunkSize sep good c h
            _ ≤ (joinSep sep (good ++ d :: ds)).length :=
                length_joinSep_le_append_left sep good (d :: ds)
        · calc c.length ≤ d.length := hst d c h
            _ ≤ (joinSep sep (good ++ d :: ds)).length :=
                length_le_joinSep_of_mem sep (by simp)
      · calc c.length ≤ (joinSep sep ([] ++ ds)).length := ih [] c h
          _ ≤ (joinSep sep (d :: ds)).length := by
              simpa using length_joinSep_le_append_right sep [d] ds
          _ ≤ (joinSep sep (good ++ d :: ds)).length :=
              length_joinSep_le_append_right sep good (d :: ds)

/-- Every chunk the splitter produces is at most as long as its input. -/
theorem splitText_chunk_le (chunkSize : Nat) :
    ∀ (fuel : Nat) (t c : Text), c ∈ splitText chunkSize fuel t → c.length ≤ t.length := by
  intro fuel
  induction fuel with
  | zero =>
    intro t c hc
    simp only [splitText, List.mem_singleton] at hc
    subst hc; exact le_refl _
  | succ fuel ih =>
    intro t c hc
    simp only [splitText] at hc
    have h := splitLoop_chunk_le (splitText chunkSize fuel) chunkSize
      (chooseSeparator t) ih (rawSplits (chooseSeparator t) t) [] c hc
    rw [List.nil_append] at h
    calc c.length ≤ (joinSep (chooseSeparator t) (rawSplits (chooseSeparator t) t)).length := h
      _ = t.length := length_joinSep_rawSplits _ t rfl

/-- The first chunk is at most as long as the input. -/
theorem splitText_head_le (chunkSize fuel : Nat) (t : Text) :
    ((splitText chunkSize fuel t).headD []).length ≤ t.length := by
  rcases h : splitText chunkSize fuel t with _ | ⟨c, cs⟩
  · simp
  · simp only [List.headD_cons]
    exact splitText_chunk_le chunkSize fuel t c (by rw [h]; simp)

/-! ### Well-founded `trimPrompt` and its agreement with the fuel version -/

/-- `trimPrompt` by well-founded recursion on the input length: its
acceptance by the termination checker witnesses that every recursive call
(first-chunk path and hard-cut fallback alike) strictly shrinks the
input. -/
def trimPromptRec (tok : Text → Nat) (prompt : Text) (contextSize : Nat) : Text :=
  if hp : prompt = [] then []
  else if tok prompt ≤ contextSize then prompt
  else if prompt.length - (tok prompt - contextSize) * 3 < MinChunkSize then
    prompt.take MinChunkSize
  else if heq : ((splitText (prompt.length - (tok prompt - contextSize) * 3)
      (prompt.length + 1) prompt).headD []).length = prompt.length then
    trimPromptRec tok (prompt.take (prompt.length - (tok prompt - contextSize) * 3))
      contextSize
  else
    trimPromptRec tok
      ((splitText (prompt.length - (tok prompt - contextSize) * 3)
        (prompt.length + 1) prompt).headD []) contextSize
termination_by prompt.length
decreasing_by
  · simp only [List.length_take]
    have hpos : 0 < prompt.length := List.length_pos.mpr hp
    omega
  · have hle := splitText_head_le (prompt.length - (tok prompt - contextSize) * 3)
      (prompt.length + 1) prompt
    omega

theorem trimPromptFuel_eq_rec (tok : Text → Nat) :
    ∀ (fuel : Nat) (prompt : Text) (contextSize : Nat), prompt.length < fuel →
      trimPromptFuel tok fuel prompt contextSize = trimPromptRec tok prompt contextSize := by
  intro fuel
  induction fuel with
  | zero => intro p k h; exact absurd h (Nat.not_lt_zero _)
  | succ fuel ih =>
    intro p k hf
    rw [trimPromptRec]
    show trimPromptFuel tok (fuel + 1) p k = _
    simp only [trimPromptFuel]
    split_ifs with hp hbudget hchunk heq
    · rfl
    · rfl
    · rfl
    · apply ih
      simp only [List.length_take]
      have hpos : 0 < p.length := List.length_pos.mpr hp
      omega
    · apply ih
      have hle := splitText_head_le (p.length - (tok p - k) * 3) (p.length + 1) p
      omega

/-- Fuel `prompt.length + 1` computes the well-founded fixpoint. -/
theorem trimPrompt_eq_rec (tok : Text → Nat) (prompt : Text) (contextSize : Nat) :
    trimPrompt tok prompt contextSize = trimPromptRec tok prompt contextSize :=
  trimPromptFuel_eq_rec tok (prompt.length + 1) prompt contextSize (Nat.lt_succ_self _)

/-! ## The recursive research orchestration engine (src/deep-research.ts)

The external collaborators — the query planner (`generateObject` inside
`generateSerpQueries`), the search provider (`firecrawl.search`) and the
result analyzer (`generateObject` inside `processSerpResult`) — are
modelled as oracle functions collected in an `Env`; a fallible call
returns `Except String α`, the `.error` case standing for a thrown or
timed-out promise.  `processSingleSerpQuery`'s `try/catch` is modelled by
pattern-matching every fallible step and returning the empty result on
`.error`.  The `Promise.all(serpQueries.map(serpQuery => limit(() =>
processSingleSerpQuery(...))))` collects branch results in input order,
each branch receiving the same `learnings`/`visitedUrls` snapshot, which
the `List.map` below reproduces.  The recursion `processSingleSerpQuery →
deepResearch` is depth-bounded; it is expressed with a fuel argument
(`depth + 1` always suffices, proved below) so that it computes. -/

/-- One item of a Firecrawl `SearchResponse`: url and markdown content,
each possibly missing. -/
structure SearchItem where
  url : Option String
  markdown : Option String
deriving DecidableEq

/-- A Firecrawl search response (`result.data`). -/
abbrev SearchResponse := List SearchItem

/-- A single SERP query with its associated research goal. -/
structure SerpQuery where
  query : String
  researchGoal : String
deriving DecidableEq

/-- Structure of the AI-generated SERP analysis result. -/
structure SerpAnalysisResult where
  learnings : List String
  followUpQuestions : List String
deriving DecidableEq

/-- Final research results: accumulated learnings and visited URLs. -/
structure ResearchResult where
  learnings : List String
  visitedUrls : List String
deriving DecidableEq

/-- Oracles for the external collaborators, plus the tokenizer used by
the trimming of page contents.  `planQueries` takes the query, the
accumulated learnings and `numQueries`; `analyze` takes the query, the
trimmed contents, `numLearnings` and `numFollowUpQuestions`. -/
structure Env where
  planQueries : String → List String → Nat → Except String (List SerpQuery)
  search : String → Except String SearchResponse
  analyze : String → List String → Nat → Nat → Except String SerpAnalysisResult
  tok : Text → Nat

/-- `extractUrlsFromResult`: `compact(result.data.map(item => item.url))`. -/
def extractUrlsFromResult (result : SearchResponse) : List String :=
  result.filterMap (fun item => item.url)

/-- `extractAndTrimSerpContent`: compact the markdown contents and trim
each to a 25000-token budget. -/
def extractAndTrimSerpContent (env : Env) (result : SearchResponse) : List String :=
  (result.filterMap (fun item => item.markdown)).map
    (fun content => String.mk (trimPrompt env.tok content.data 25000))

/-- `generateNextResearchQuery(researchGoal, followUpQuestions)`. -/
def generateNextResearchQuery (researchGoal : String) (followUpQuestions : List String) : String :=
  "Previous research goal: " ++ researchGoal ++ "\nFollow-up research directions: "
    ++ String.intercalate "\n" (followUpQuestions.map (fun q => q.trim))

/-- `generateSerpQueries`: ask the planner, then defensively truncate to
`numQueries` (`res.object.queries.slice(0, numQueries)`). -/
def generateSerpQueries (env : Env) (query : String) (learnings : List String)
    (numQueries : Nat) : Except String (List SerpQuery) :=
  (env.planQueries query learnings numQueries).map (fun qs => qs.take numQueries)

/-- `processSerpResult`: trim the contents, then ask the analyzer
(`numLearnings` defaults to 3 at the call site). -/
def processSerpResult (env : Env) (query : String) (result : SearchResponse)
    (numLearnings numFollowUpQuestions : Nat) : Except String SerpAnalysisResult :=
  env.analyze query (extractAndTrimSerpContent env result) numLearnings numFollowUpQuestions

/-- The `catch` surrounding a nested `deepResearch` call: an error from
the nested research degrades to the empty result. -/
def branchCatch (x : Except String ResearchResult) : ResearchResult :=
  match x with
  | .error _ => ⟨[], []⟩
  | .ok r => r

/-- `processSingleSerpQuery(serpQuery, breadth, depth, learnings,
visitedUrls)`.  `dr` is the `deepResearch` function used for the nested
recursive call; every fallible step (search, analysis, nested research)
is caught and converted to `{learnings: [], visitedUrls: []}`.
`Math.ceil(breadth / 2) = (breadth + 1) / 2` in `Nat`, and JavaScript's
`depth - 1 > 0` test matches `0 < depth - 1` under truncated subtraction. -/
def processSingleSerpQuery (env : Env)
    (dr : String → Nat → Nat → List String → List String → Except String ResearchResult)
    (serpQuery : SerpQuery) (breadth depth : Nat)
    (learnings visitedUrls : List String) : ResearchResult :=
  match env.search serpQuery.query with
  | .error _ => ⟨[], []⟩
  | .ok result =>
    match processSerpResult env serpQuery.query result 3 ((breadth + 1) / 2) with
    | .error _ => ⟨[], []⟩
    | .ok newLearnings =>
      if 0 < depth - 1 then
        branchCatch (dr
          (generateNextResearchQuery serpQuery.researchGoal newLearnings.followUpQuestions)
          ((breadth + 1) / 2) (depth - 1)
          (learnings ++ newLearnings.learnings)
          (visitedUrls ++ extractUrlsFromResult result))
      else
        ⟨learnings ++ newLearnings.learnings, visitedUrls ++ extractUrlsFromResult result⟩

/-- `[...new Set(xs)]`: exact-string deduplication keeping the first
occurrence of each element (JavaScript `Set` preserves insertion order). -/
def dedupAux (seen : List String) : List String → List String
  | [] => []
  | x :: xs => if x ∈ seen then dedupAux seen xs else x :: dedupAux (x :: seen) xs

/-- First-occurrence deduplication. -/
def dedupFirst (xs : List String) : List String := dedupAux [] xs

/-- The aggregation at the end of `deepResearch`. -/
def aggregateResults (results : List ResearchResult) : ResearchResult :=
  ⟨dedupFirst (results.flatMap (fun r => r.learnings)),
   dedupFirst (results.flatMap (fun r => r.visitedUrls))⟩

/-- Fuel-indexed `deepResearch`; fuel `depth + 1` always suffices (each
nested call decrements the depth), proved in `deepResearchFuel_congr`. -/
def deepResearchFuel (env : Env) :
    Nat → String → Nat → Nat → List String → List String → Except String ResearchResult
  | 0 => fun _ _ _ _ _ => .error "out of fuel"
  | fuel + 1 => fun query breadth depth learnings visitedUrls =>
    match generateSerpQueries env query learnings breadth with
    | .error e => .error e
    | .ok serpQueries =>
      .ok (aggregateResults (serpQueries.map (fun serpQuery =>
        processSingleSerpQuery env (deepResearchFuel env fuel)
          serpQuery breadth depth learnings visitedUrls)))

/-- `deepResearch({query, breadth, depth, learnings, visitedUrls})`.
An `.error` value models the promise rejecting (which for this function
can only originate in the root query-planning call). -/
def deepResearch (env : Env) (query : String) (breadth depth : Nat)
    (learnings visitedUrls : List String) : Except String ResearchResult :=
  deepResearchFuel env (depth + 1) query breadth depth learnings visitedUrls

/-- One branch of a `deepResearch` invocation, its nested recursive call
being `deepResearch` itself. -/
def runBranch (env : Env) (breadth depth : Nat) (learnings visitedUrls : List String)
    (serpQuery : SerpQuery) : ResearchResult :=
  processSingleSerpQuery env (fun q b d ls vs => deepResearch env q b d ls vs)
    serpQuery breadth depth learnings visitedUrls

/-! ### Orchestration lemmas -/

theorem processSingleSerpQuery_congr (env : Env)
    (dr dr' : String → Nat → Nat → List String → List String → Except String ResearchResult)
    (sq : SerpQuery) (b d : Nat) (ls vs : List String)
    (h : 0 < d - 1 → ∀ q' ls' vs',
      dr q' ((b + 1) / 2) (d - 1) ls' vs' = dr' q' ((b + 1) / 2) (d - 1) ls' vs') :
    processSingleSerpQuery env dr sq b d ls vs
      = processSingleSerpQuery env dr' sq b d ls vs := by
  rcases hsearch : env.search sq.query with e | result
  · simp [processSingleSerpQuery, hsearch]
  · rcases hana : processSerpResult env sq.query result 3 ((b + 1) / 2) with e | ana
    · simp [processSingleSerpQuery, hsearch, hana]
    · by_cases hd : 0 < d - 1
      · simp [processSingleSerpQuery, hsearch, hana, hd, h hd]
      · simp [processSingleSerpQuery, hsearch, hana, hd]

theorem deepResearchFuel_congr (env : Env) :
    ∀ (d f g : Nat) (q : String) (b : Nat) (ls vs : List String), d < f → d < g →
      deepResearchFuel env f q b d ls vs = deepResearchFuel env g q b d ls vs := by
  intro d
  induction d using Nat.strong_induction_on with
  | _ d ih =>
    intro f g q b ls vs hf hg
    match f, g with
    | fa + 1, ga + 1 =>
      show (deepResearchFuel env (fa + 1)) q b d ls vs
        = (deepResearchFuel env (ga + 1)) q b d ls vs
      simp only [deepResearchFuel]
      cases generateSerpQueries env q ls b with
      | error e => rfl
      | ok qs =>
        simp only [Except.ok.injEq]
        congr 1
        apply List.map_congr_left
        intro sq _
        apply processSingleSerpQuery_congr
        intro hd q' ls' vs'
        exact ih (d - 1) (by omega) fa ga q' ((b + 1) / 2) ls' vs' (by omega) (by omega)

/-- The branch executions inside `deepResearch` are `runBranch`. -/
theorem deepResearch_unfold (env : Env) (q : String) (b d : Nat) (ls vs : List String) :
    deepResearch env q b d ls vs
      = (generateSerpQueries env q ls b).map
          (fun qs => aggregateResults (qs.map (runBranch env b d ls vs))) := by
  show (deepResearchFuel env (d + 1)) q b d ls vs = _
  simp only [deepResearchFuel]
  cases hq : generateSerpQueries env q ls b with
  | error e => rfl
  | ok qs =>
    simp only [Except.map]
    congr 1
    congr 1
    apply List.map_congr_left
    intro sq _
    apply processSingleSerpQuery_congr
    intro hd q' ls' vs'
    show deepResearchFuel env d q' ((b + 1) / 2) (d - 1) ls' vs'
      = deepResearch env q' ((b + 1) / 2) (d - 1) ls' vs'
    exact deepResearchFuel_congr env (d - 1) d (d - 1 + 1) q' ((b + 1) / 2) ls' vs'
      (by omega) (by omega)

theorem mem_dedupAux (x : String) :
    ∀ (xs seen : List String), x ∈ dedupAux seen xs ↔ (x ∈ xs ∧ x ∉ seen) := by
  intro xs
  induction xs with
  | nil => intro seen; simp [dedupAux]
  | cons y ys ih =>
    intro seen
    simp only [dedupAux]
    by_cases hy : y ∈ seen
    · rw [if_pos hy, ih seen]
      constructor
      · rintro ⟨h1, h2⟩
        exact ⟨List.mem_cons_of_mem y h1, h2⟩
      · rintro ⟨h1, h2⟩
        rcases List.mem_cons.mp h1 with rfl | h1
        · exact absurd hy h2
        · exact ⟨h1, h2⟩
    · rw [if_neg hy]
      constructor
      · intro h
        rcases List.mem_cons.mp h with rfl | h
        · exact ⟨List.mem_cons_self x ys, hy⟩
        · have := (ih (y :: seen)).mp h
          refine ⟨List.mem_cons_of_mem y this.1, fun hs => this.2 (List.mem_cons_of_mem y hs)⟩
      · rintro ⟨h1, h2⟩
        rcases List.mem_cons.mp h1 with rfl | h1
        · exact List.mem_cons_self x _
        · by_cases hxy : x = y
          · subst hxy; exact List.mem_cons_self x _
          · exact List.mem_cons_of_mem y ((ih (y :: seen)).mpr
              ⟨h1, by simp [hxy, h2]⟩)

theorem mem_dedupFirst (x : String) (xs : List String) :
    x ∈ dedupFirst xs ↔ x ∈ xs := by
  rw [dedupFirst, mem_dedupAux]
  simp

theorem count_dedupAux (x : String) :
    ∀ (xs seen : List String),
      (dedupAux seen xs).count x = if x ∈ xs ∧ x ∉ seen then 1 else 0 := by
  intro xs
  induction xs with
  | nil => intro seen; simp [dedupAux]
  | cons y ys ih =>
    intro seen
    simp only [dedupAux]
    by_cases hy : y ∈ seen
    · rw [if_pos hy, ih seen]
      by_cases hx : x ∈ ys ∧ x ∉ seen
      · rw [if_pos hx, if_pos ⟨List.mem_cons_of_mem y hx.1, hx.2⟩]
      · rw [if_neg hx, if_neg]
        rintro ⟨h1, h2⟩
        rcases List.mem_cons.mp h1 with rfl | h1
        · exact h2 hy
        · exact hx ⟨h1, h2⟩
    · rw [if_neg hy]
      by_cases hxy : x = y
      · subst hxy
        rw [List.count_cons_self, ih (x :: seen)]
        rw [if_neg (by rintro ⟨h1, h2⟩; exact h2 (List.mem_cons_self x seen))]
        rw [if_pos ⟨List.mem_cons_self x ys, hy⟩]
      · rw [List.count_cons_of_ne hxy, ih (y :: seen)]
        by_cases hx : x ∈ ys ∧ x ∉ seen
        · rw [if_pos ⟨hx.1, by simp [hxy, hx.2]⟩,
            if_pos ⟨List.mem_cons_of_mem y hx.1, hx.2⟩]
        · rw [if_neg, if_neg]
          · rintro ⟨h1, h2⟩
            rcases List.mem_cons.mp h1 with rfl | h1
            · exact hxy rfl
            · exact hx ⟨h1, h2⟩
          · rintro ⟨h1, h2⟩
            exact hx ⟨h1, fun hs => h2 (List.mem_cons_of_mem y hs)⟩

theorem count_dedupFirst (x : String) (xs : List String) :
    (dedupFirst xs).count x = if x ∈ xs then 1 else 0 := by
  rw [dedupFirst, count_dedupAux]
  simp

/-! ## Rate limiting and the concurrency limiter (spec §4.2)

`fetchSerpResults` awaits `sleep(RATE_LIMIT_MS)` and only then issues the
provider request; the branches run under `pLimit(ConcurrencyLimit)`.
Modelled from the spec: `p-limit` is an external npm dependency, so the
limiter is modelled from the spec's §4.2 contract — at most `limit` tasks
active at an instant, tasks started in FIFO order as slots free up — as a
discrete virtual-time schedule.  All tasks are enqueued at time 0;
`schedStarts workers lats` assigns each task the earliest free worker,
the task then sleeps `RATE_LIMIT_MS`, issues its provider request, and
occupies its worker for a further oracle-chosen response latency.
`requestTimes limit lats` lists the instants at which the provider
requests are issued, in task order. -/

/-- `RATE_LIMIT_MS` from src/deep-research.ts. -/
def RATE_LIMIT_MS : Nat := 1000

/-- `ConcurrencyLimit` from src/deep-research.ts. -/
def ConcurrencyLimit : Nat := 1

/-- Replace the first occurrence of `v` by `y`. -/
def replaceFirst : List Nat → Nat → Nat → List Nat
  | [], _, _ => []
  | x :: xs, v, y => if x = v then y :: xs else x :: replaceFirst xs v y

/-- Start times of the tasks: each task takes the earliest free worker,
and holds it for the rate-limit sleep plus its response latency. -/
def schedStarts : List Nat → List Nat → List Nat
  | _, [] => []
  | [], _ :: _ => []
  | w :: ws, lat :: rest =>
    let s := ws.foldl Nat.min w
    s :: schedStarts (replaceFirst (w :: ws) s (s + RATE_LIMIT_MS + lat)) rest

/-- The instants at which the provider requests are issued: each task's
start time plus the `sleep(RATE_LIMIT_MS)` awaited in `fetchSerpResults`
before `firecrawl.search`. -/
def requestTimes (limit : Nat) (lats : List Nat) : List Nat :=
  (schedStarts (List.replicate limit 0) lats).map (fun s => s + RATE_LIMIT_MS)

theorem schedStarts_single_cons (w lat : Nat) (rest : List Nat) :
    schedStarts [w] (lat :: rest)
      = w :: schedStarts [w + RATE_LIMIT_MS + lat] rest := by
  simp only [schedStarts, List.foldl_nil]
  rw [show replaceFirst [w] w (w + RATE_LIMIT_MS + lat) = [w + RATE_LIMIT_MS + lat] from by
    simp [replaceFirst]]

theorem schedStarts_single_chain (w : Nat) :
    ∀ (lats : List Nat),
      List.Chain' (fun a b => a + RATE_LIMIT_MS ≤ b) (schedStarts [w] lats) := by
  intro lats
  induction lats generalizing w with
  | nil => simp [schedStarts]
  | cons lat rest ih =>
    rw [schedStarts_single_cons]
    cases rest with
    | nil => simp [schedStarts]
    | cons lat2 rest2 =>
      rw [schedStarts_single_cons]
      refine List.chain'_cons.mpr ⟨by omega, ?_⟩
      rw [← schedStarts_single_cons]
      exact ih (w + RATE_LIMIT_MS + lat)

/-! ## Concrete environments and inputs used for witnesses and
counterexamples -/

/-- A simple concrete tokenizer model: about four characters per token. -/
def tokLen4 (t : Text) : Nat := (t.length + 3) / 4

/-- A 144-character text whose first paragraph is only two characters. -/
def cexText : Text := 'a' :: 'b' :: '\n' :: '\n' :: List.replicate 140 'x'

/-- A nested-research stub returning a fixed result. -/
def drStub : String → Nat → Nat → List String → List String → Except String ResearchResult :=
  fun _ _ _ _ _ => .ok ⟨["nested"], ["nestedUrl"]⟩

/-- A nested-research stub that always fails. -/
def drFail : String → Nat → Nat → List String → List String → Except String ResearchResult :=
  fun _ _ _ _ _ => .error "nested failure"

/-- Environment whose search provider always times out. -/
def envSearchFail : Env :=
  ⟨fun _ _ _ => .ok [⟨"q1", "g1"⟩],
   fun _ => .error "Timeout",
   fun _ _ _ _ => .ok ⟨["L1"], ["F1"]⟩,
   fun t => t.length⟩

/-- Environment whose result analyzer always fails. -/
def envAnalyzeFail : Env :=
  ⟨fun _ _ _ => .ok [⟨"q1", "g1"⟩],
   fun _ => .ok [⟨some "https://u1", some "md1"⟩],
   fun _ _ _ _ => .error "schema validation failed",
   fun t => t.length⟩

/-- Environment where every collaborator succeeds. -/
def envOk : Env :=
  ⟨fun _ _ _ => .ok [⟨"q1", "g1"⟩],
   fun _ => .ok [⟨some "https://u1", some "md1"⟩],
   fun _ _ _ _ => .ok ⟨["L1"], ["F1"]⟩,
   fun t => t.length⟩

/-- Environment where every collaborator succeeds but the analyzer
returns zero follow-up questions. -/
def envZeroFollowUps : Env :=
  ⟨fun _ _ _ => .ok [⟨"q1", "g1"⟩],
   fun _ => .ok [⟨some "https://u1", some "md1"⟩],
   fun _ _ _ _ => .ok ⟨["L1"], []⟩,
   fun t => t.length⟩

/-- Environment whose root query planner fails. -/
def envPlanFail : Env :=
  ⟨fun _ _ _ => .error "planner down",
   fun _ => .ok [],
   fun _ _ _ _ => .ok ⟨[], []⟩,
   fun t => t.length⟩

/-- Environment whose query planner returns no candidate queries. -/
def envPlanEmpty : Env :=
  ⟨fun _ _ _ => .ok [],
   fun _ => .error "never searched",
   fun _ _ _ _ => .error "never analyzed",
   fun t => t.length⟩

/-! ## Arithmetic helper -/

/-- `Math.ceil(b / 2)` on naturals is `(b + 1) / 2`. -/
theorem nat_ceil_half (b : Nat) : ⌈(b : ℚ) / 2⌉₊ = (b + 1) / 2 := by
  rcases Nat.even_or_odd b with ⟨m, rfl⟩ | ⟨m, rfl⟩
  · have h2 : ((m + m : ℕ) : ℚ) / 2 = (m : ℚ) := by push_cast; ring
    rw [h2, Nat.ceil_natCast]
    omega
  · have h2 : ((2 * m + 1 : ℕ) : ℚ) / 2 = (m : ℚ) + 1 / 2 := by push_cast; ring
    rw [h2]
    have h3 : ⌈(m : ℚ) + 1 / 2⌉₊ = m + 1 := by
      rw [Nat.ceil_eq_iff (by omega)]
      constructor
      · push_cast
        norm_num
      · push_cast
        norm_num
    rw [h3]
    omega

/-! ## The claims -/

/-- Claim C4: for all text `t` whose token count is at most the budget,
`trim(t, budget)` returns `t` exactly unchanged (identity — hence
idempotence — on the within-budget domain), for every tokenizer. -/
theorem trimPrompt_within_budget_id (tok : Text → Nat) (t : Text) (k : Nat)
    (h : tok t ≤ k) : trimPrompt tok t k = t := by
  show trimPromptFuel tok (t.length + 1) t k = t
  simp only [trimPromptFuel]
  by_cases hp : t = []
  · simp [hp]
  · simp [hp, h]

/-- Witness for C4 at a concrete input. -/
theorem trimPrompt_within_budget_id_witness :
    tokLen4 ['a', 'b'] ≤ 9 ∧ trimPrompt tokLen4 ['a', 'b'] 9 = ['a', 'b'] :=
  ⟨by decide, trimPrompt_within_budget_id tokLen4 ['a', 'b'] 9 (by decide)⟩

/-- Claim C5: `trim(t, k)` terminates for every text and budget; the
fuel-bounded computation agrees with the well-founded recursion on the
input length (whose acceptance certifies that every recursive call is on
a strictly shorter input), and both recursive arguments — the hard-cut
fallback and the splitter's first chunk under the `≠`-guard — are
strictly shorter than the input whenever the recursive branches are
reachable. -/
theorem trimPrompt_recursive_calls_shrink (tok : Text → Nat) (t : Text) (k : Nat)
    (hne : t ≠ []) (hover : ¬ tok t ≤ k) :
    trimPrompt tok t k = trimPromptRec tok t k ∧
    (t.take (t.length - (tok t - k) * 3)).length < t.length ∧
    (((splitText (t.length - (tok t - k) * 3) (t.length + 1) t).headD []).length ≠ t.length →
      ((splitText (t.length - (tok t - k) * 3) (t.length + 1) t).headD []).length < t.length) := by
  refine ⟨trimPrompt_eq_rec tok t k, ?_, ?_⟩
  · have hpos : 0 < t.length := List.length_pos.mpr hne
    simp only [List.length_take]
    omega
  · intro hne2
    have hle := splitText_head_le (t.length - (tok t - k) * 3) (t.length + 1) t
    omega

set_option maxRecDepth 16000 in
/-- Witness for C5 at a concrete input. -/
theorem trimPrompt_recursive_calls_shrink_witness :
    trimPrompt tokLen4 cexText 35 = trimPromptRec tokLen4 cexText 35 ∧
    (cexText.take (cexText.length - (tokLen4 cexText - 35) * 3)).length < cexText.length ∧
    (((splitText (cexText.length - (tokLen4 cexText - 35) * 3) (cexText.length + 1)
        cexText).headD []).length ≠ cexText.length →
      ((splitText (cexText.length - (tokLen4 cexText - 35) * 3) (cexText.length + 1)
        cexText).headD []).length < cexText.length) :=
  trimPrompt_recursive_calls_shrink tokLen4 cexText 35 (by decide) (by decide)

set_option maxRecDepth 16000 in
/-- Claim C3 fails on the code: for the 144-character text `cexText`
(two characters, a paragraph break, then 140 `x`s) and budget 35, the
estimated character target is 141 ≥ 140, the splitter's first chunk is
the two-character first paragraph, and the recursion returns it — a
result of length 2 < 140 although the input has length 144 ≥ 140. -/
theorem trimPrompt_floor_counterexample :
    1 ≤ 35 ∧ 140 ≤ cexText.length ∧ (trimPrompt tokLen4 cexText 35).length < 140 ∧
    trimPrompt tokLen4 cexText 35 = ['a', 'b'] := by
  refine ⟨by decide, by decide, by decide, by decide⟩

/-- Claim C3 (amended): for all text `t` and budget `k ≥ 1`,
`trim(t, k)` terminates (the fuel-bounded computation equals the
well-founded recursion on the input length), and when `len(t) < 140` the
result equals `t`; but for `len(t) ≥ 140` the result is not guaranteed to
have length ≥ 140 — the 140-character floor applies only on the
hard-floor branch, and the splitter's first chunk may be shorter
(`trimPrompt_floor_counterexample`). -/
theorem trimPrompt_terminates_and_small_input_id (tok : Text → Nat) (t : Text) (k : Nat)
    (hk : 1 ≤ k) :
    trimPrompt tok t k = trimPromptRec tok t k ∧
    (t.length < MinChunkSize → trimPrompt tok t k = t) := by
  refine ⟨trimPrompt_eq_rec tok t k, ?_⟩
  intro hsmall
  show trimPromptFuel tok (t.length + 1) t k = t
  simp only [trimPromptFuel]
  by_cases hp : t = []
  · simp [hp]
  · by_cases hbudget : tok t ≤ k
    · simp [hp, hbudget]
    · have hchunk : t.length - (tok t - k) * 3 < MinChunkSize :=
        lt_of_le_of_lt (Nat.sub_le _ _) hsmall
      simp only [hp, if_neg, if_false, hbudget, if_pos hchunk]
      exact List.take_of_length_le (le_of_lt hsmall)

/-- Witness for the amended C3 at a concrete input. -/
theorem trimPrompt_terminates_and_small_input_id_witness :
    trimPrompt tokLen4 ['a'] 1 = trimPromptRec tokLen4 ['a'] 1 ∧
    (List.length ['a'] < MinChunkSize → trimPrompt tokLen4 ['a'] 1 = ['a']) :=
  trimPrompt_terminates_and_small_input_id tokLen4 ['a'] 1 (le_refl 1)

/-- Claim C1: every error during a branch's search call, result analysis,
or nested recursive research is caught at the branch boundary and becomes
the empty `BranchResult`; when the root planner answers, `deepResearch`
succeeds with the aggregation over all branches (each branch's learnings
appearing in the aggregate), and a root planner failure is the only
failure that propagates to the caller. -/
theorem deepResearch_failure_isolation (env : Env) (q : String) (b d : Nat)
    (ls vs : List String) :
    (∀ dr sq e, env.search sq.query = .error e →
        processSingleSerpQuery env dr sq b d ls vs = ⟨[], []⟩) ∧
    (∀ dr sq res e, env.search sq.query = .ok res →
        processSerpResult env sq.query res 3 ((b + 1) / 2) = .error e →
        processSingleSerpQuery env dr sq b d ls vs = ⟨[], []⟩) ∧
    (∀ dr sq res ana e, env.search sq.query = .ok res →
        processSerpResult env sq.query res 3 ((b + 1) / 2) = .ok ana →
        0 < d - 1 →
        dr (generateNextResearchQuery sq.researchGoal ana.followUpQuestions)
          ((b + 1) / 2) (d - 1) (ls ++ ana.learnings)
          (vs ++ extractUrlsFromResult res) = .error e →
        processSingleSerpQuery env dr sq b d ls vs = ⟨[], []⟩) ∧
    (∀ qs, env.planQueries q ls b = .ok qs →
        deepResearch env q b d ls vs
          = .ok (aggregateResults ((qs.take b).map (runBranch env b d ls vs))) ∧
        ∀ sq ∈ qs.take b, ∀ x ∈ (runBranch env b d ls vs sq).learnings,
          x ∈ (aggregateResults ((qs.take b).map (runBranch env b d ls vs))).learnings) ∧
    (∀ e, env.planQueries q ls b = .error e → deepResearch env q b d ls vs = .error e) := by
  refine ⟨?_, ?_, ?_, ?_, ?_⟩
  · intro dr sq e hs
    simp [processSingleSerpQuery, hs]
  · intro dr sq res e hs ha
    simp [processSingleSerpQuery, hs, ha]
  · intro dr sq res ana e hs ha hd hdr
    simp [processSingleSerpQuery, hs, ha, hd, hdr, branchCatch]
  · intro qs hplan
    constructor
    · rw [deepResearch_unfold]
      simp [generateSerpQueries, hplan, Except.map]
    · intro sq hsq x hx
      show x ∈ dedupFirst _
      rw [mem_dedupFirst]
      exact List.mem_flatMap.mpr
        ⟨runBranch env b d ls vs sq, List.mem_map_of_mem _ hsq, hx⟩
  · intro e hplan
    show deepResearchFuel env (d + 1) q b d ls vs = .error e
    simp [deepResearchFuel, generateSerpQueries, hplan, Except.map]

/-- Witness for C1: a timed-out search branch yields the empty result,
and a root planner failure propagates. -/
theorem deepResearch_failure_isolation_witness :
    processSingleSerpQuery envSearchFail drStub ⟨"q1", "g1"⟩ 2 1 ["a"] ["u"] = ⟨[], []⟩ ∧
    deepResearch envPlanFail "topic" 2 1 [] [] = .error "planner down" :=
  ⟨(deepResearch_failure_isolation envSearchFail "topic" 2 1 ["a"] ["u"]).1
      drStub ⟨"q1", "g1"⟩ "Timeout" rfl,
   (deepResearch_failure_isolation envPlanFail "topic" 2 1 [] []).2.2.2.2
      "planner down" rfl⟩

/-- Claim C2 fails on the code: when the planner returns no candidate
queries, `deepResearch` returns the empty result even though the input
learnings/visitedUrls were non-empty — the returned `ResearchResult` does
not include the elements of the input `learnings`. -/
theorem research_result_drops_inputs_counterexample :
    deepResearch envPlanEmpty "topic" 1 1 ["a"] ["u"] = .ok ⟨[], []⟩ ∧
    "a" ∈ (["a"] : List String) ∧
    "a" ∉ (ResearchResult.mk [] []).learnings := by
  refine ⟨rfl, by decide, by decide⟩

/-- Claim C2 (amended): along a single branch the accumulated snapshots
are monotonically non-decreasing — on a branch's success path, a
depth-exhausted branch returns `learnings ++ new` and `visitedUrls ++
new` (which include every element of the inputs), and a recursing branch
passes those same supersets into its nested research call; merging across
branches happens only at aggregation.  The `ResearchResult` returned by
an invocation of `research` itself, however, need not include the input
learnings/visitedUrls (`research_result_drops_inputs_counterexample`). -/
theorem branch_accumulation_monotone (env : Env)
    (dr : String → Nat → Nat → List String → List String → Except String ResearchResult)
    (sq : SerpQuery) (b d : Nat) (ls vs : List String)
    (res : SearchResponse) (ana : SerpAnalysisResult)
    (hs : env.search sq.query = .ok res)
    (ha : processSerpResult env sq.query res 3 ((b + 1) / 2) = .ok ana) :
    (d ≤ 1 →
      processSingleSerpQuery env dr sq b d ls vs
        = ⟨ls ++ ana.learnings, vs ++ extractUrlsFromResult res⟩ ∧
      (∀ x ∈ ls, x ∈ (processSingleSerpQuery env dr sq b d ls vs).learnings) ∧
      (∀ x ∈ vs, x ∈ (processSingleSerpQuery env dr sq b d ls vs).visitedUrls)) ∧
    (2 ≤ d →
      processSingleSerpQuery env dr sq b d ls vs
        = branchCatch (dr (generateNextResearchQuery sq.researchGoal ana.followUpQuestions)
            ((b + 1) / 2) (d - 1) (ls ++ ana.learnings)
            (vs ++ extractUrlsFromResult res))) := by
  constructor
  · intro hd
    have hnd : ¬ 0 < d - 1 := by omega
    have heq : processSingleSerpQuery env dr sq b d ls vs
        = ⟨ls ++ ana.learnings, vs ++ extractUrlsFromResult res⟩ := by
      simp [processSingleSerpQuery, hs, ha, hnd]
    refine ⟨heq, ?_, ?_⟩
    · intro x hx
      rw [heq]
      exact List.mem_append_left _ hx
    · intro x hx
      rw [heq]
      exact List.mem_append_left _ hx
  · intro hd
    have hnd : 0 < d - 1 := by omega
    simp [processSingleSerpQuery, hs, ha, hnd]

/-- Witness for the amended C2: a successful depth-exhausted branch
returns the input snapshot extended with the new learnings and URLs. -/
theorem branch_accumulation_monotone_witness :
    processSingleSerpQuery envOk drStub ⟨"q1", "g1"⟩ 2 1 ["a"] ["u"]
      = ⟨["a", "L1"], ["u", "https://u1"]⟩ ∧
    "a" ∈ (processSingleSerpQuery envOk drStub ⟨"q1", "g1"⟩ 2 1 ["a"] ["u"]).learnings := by
  have h := branch_accumulation_monotone envOk drStub ⟨"q1", "g1"⟩ 2 1 ["a"] ["u"]
    [⟨some "https://u1", some "md1"⟩] ⟨["L1"], ["F1"]⟩ rfl rfl
  exact ⟨((h.1 (by omega)).1).trans (by decide),
    (h.1 (by omega)).2.1 "a" (by decide)⟩

/-- Claim C6: the breadth passed to any recursive research call equals
`Math.ceil(breadth / 2)` — which is `⌈b / 2⌉` — and is at least 1 when
`b ≥ 1`. -/
theorem breadth_decay (env : Env)
    (dr : String → Nat → Nat → List String → List String → Except String ResearchResult)
    (sq : SerpQuery) (b d : Nat) (ls vs : List String)
    (res : SearchResponse) (ana : SerpAnalysisResult)
    (hb : 1 ≤ b)
    (hs : env.search sq.query = .ok res)
    (ha : processSerpResult env sq.query res 3 ((b + 1) / 2) = .ok ana)
    (hd : 0 < d - 1) :
    processSingleSerpQuery env dr sq b d ls vs
      = branchCatch (dr (generateNextResearchQuery sq.researchGoal ana.followUpQuestions)
          ((b + 1) / 2) (d - 1) (ls ++ ana.learnings) (vs ++ extractUrlsFromResult res)) ∧
    (b + 1) / 2 = ⌈(b : ℚ) / 2⌉₊ ∧
    1 ≤ (b + 1) / 2 := by
  refine ⟨?_, (nat_ceil_half b).symm, by omega⟩
  simp [processSingleSerpQuery, hs, ha, hd]

/-- Witness for C6 at breadth 2, depth 2: the nested call runs at
breadth 1 and its result is returned. -/
theorem breadth_decay_witness :
    processSingleSerpQuery envOk drStub ⟨"q1", "g1"⟩ 2 2 [] []
      = ⟨["nested"], ["nestedUrl"]⟩ ∧
    1 ≤ (2 + 1) / 2 := by
  have h := breadth_decay envOk drStub ⟨"q1", "g1"⟩ 2 2 [] []
    [⟨some "https://u1", some "md1"⟩] ⟨["L1"], ["F1"]⟩ (by omega) rfl rfl (by omega)
  exact ⟨h.1.trans (by decide), h.2.2⟩

/-- Claim C7: a branch issues a recursive research call if and only if
`depth - 1 > 0`, independent of how many follow-up questions the analyzer
returned: at depth ≤ 1 the branch's result does not depend on the nested
research function at all (no recursive call), and at depth ≥ 2 a
successful branch hands control to the nested research call whatever
`ana.followUpQuestions` is — including the empty list. -/
theorem recursion_gated_by_depth (env : Env) (sq : SerpQuery) (b : Nat)
    (ls vs : List String) :
    (∀ d, d ≤ 1 → ∀ dr dr',
      processSingleSerpQuery env dr sq b d ls vs
        = processSingleSerpQuery env dr' sq b d ls vs) ∧
    (∀ d res ana dr, 2 ≤ d →
      env.search sq.query = .ok res →
      processSerpResult env sq.query res 3 ((b + 1) / 2) = .ok ana →
      processSingleSerpQuery env dr sq b d ls vs
        = branchCatch (dr (generateNextResearchQuery sq.researchGoal ana.followUpQuestions)
            ((b + 1) / 2) (d - 1) (ls ++ ana.learnings)
            (vs ++ extractUrlsFromResult res))) := by
  constructor
  · intro d hd dr dr'
    apply processSingleSerpQuery_congr
    intro h0
    exact absurd h0 (by omega)
  · intro d res ana dr hd hs ha
    simp [processSingleSerpQuery, hs, ha, show 0 < d - 1 by omega]

/-- Witness for C7: at depth 0 the branch result is independent of the
nested research function; at depth 2 a branch whose analyzer returned
zero follow-ups still recurses. -/
theorem recursion_gated_by_depth_witness :
    processSingleSerpQuery envOk drStub ⟨"q1", "g1"⟩ 2 0 [] []
      = processSingleSerpQuery envOk drFail ⟨"q1", "g1"⟩ 2 0 [] [] ∧
    processSingleSerpQuery envZeroFollowUps drStub ⟨"q1", "g1"⟩ 2 2 [] []
      = ⟨["nested"], ["nestedUrl"]⟩ :=
  ⟨(recursion_gated_by_depth envOk ⟨"q1", "g1"⟩ 2 [] []).1 0 (by omega) drStub drFail,
   ((recursion_gated_by_depth envZeroFollowUps ⟨"q1", "g1"⟩ 2 [] []).2 2
      [⟨some "https://u1", some "md1"⟩] ⟨["L1"], []⟩ drStub (by omega) rfl rfl).trans
     (by decide)⟩

/-- Claim C8: the aggregated `ResearchResult` returned by `research`
contains each distinct learning string exactly once and each distinct
visited URL exactly once (exact-string deduplication over the flattened
branch results, all unique values preserved). -/
theorem aggregate_dedup_exact (env : Env) (q : String) (b d : Nat)
    (ls vs : List String) (qs : List SerpQuery)
    (hplan : env.planQueries q ls b = .ok qs) :
    ∃ r, deepResearch env q b d ls vs = .ok r ∧
      (∀ s, r.learnings.count s
          = if s ∈ ((qs.take b).map (runBranch env b d ls vs)).flatMap
                (fun br => br.learnings)
            then 1 else 0) ∧
      (∀ s, r.visitedUrls.count s
          = if s ∈ ((qs.take b).map (runBranch env b d ls vs)).flatMap
                (fun br => br.visitedUrls)
            then 1 else 0) := by
  refine ⟨aggregateResults ((qs.take b).map (runBranch env b d ls vs)), ?_, ?_, ?_⟩
  · rw [deepResearch_unfold]
    simp [generateSerpQueries, hplan, Except.map]
  · intro s
    exact count_dedupFirst s _
  · intro s
    exact count_dedupFirst s _

/-- Witness for C8 at a concrete environment. -/
theorem aggregate_dedup_exact_witness :
    ∃ r, deepResearch envOk "topic" 1 1 [] [] = .ok r ∧
      (∀ s, r.learnings.count s
          = if s ∈ (([⟨"q1", "g1"⟩] : List SerpQuery).take 1
                |>.map (runBranch envOk 1 1 [] [])).flatMap (fun br => br.learnings)
            then 1 else 0) ∧
      (∀ s, r.visitedUrls.count s
          = if s ∈ (([⟨"q1", "g1"⟩] : List SerpQuery).take 1
                |>.map (runBranch envOk 1 1 [] [])).flatMap (fun br => br.visitedUrls)
            then 1 else 0) :=
  aggregate_dedup_exact envOk "topic" 1 1 [] [] [⟨"q1", "g1"⟩] rfl

/-- Claim C10: if the query planner returns an empty sequence of
candidate queries, `research` returns `{learnings: [], visitedUrls: []}`
— the accumulated input snapshot is not passed through to the result. -/
theorem empty_plan_yields_empty_result (env : Env) (q : String) (b d : Nat)
    (ls vs : List String) (hplan : env.planQueries q ls b = .ok []) :
    deepResearch env q b d ls vs = .ok ⟨[], []⟩ := by
  rw [deepResearch_unfold]
  simp [generateSerpQueries, hplan, Except.map, aggregateResults, dedupFirst, dedupAux]

/-- Witness for C10: non-empty learnings and visitedUrls are passed in,
and the empty result comes back. -/
theorem empty_plan_yields_empty_result_witness :
    deepResearch envPlanEmpty "topic" 3 2 ["a", "b"] ["u"] = .ok ⟨[], []⟩ :=
  empty_plan_yields_empty_result envPlanEmpty "topic" 3 2 ["a", "b"] ["u"] rfl

/-- Claim C9 fails on the code: with a concurrency limit of 2 (> 1), two
tasks both sleep their 1000 ms concurrently and issue their provider
requests at the same instant — the fixed pre-request delay does not
serialize provider calls in time. -/
theorem rate_limit_not_serialized_counterexample :
    1 < 2 ∧ requestTimes 2 [5, 7] = [1000, 1000] ∧
    ¬ List.Chain' (fun a b => a + RATE_LIMIT_MS ≤ b) (requestTimes 2 [5, 7]) ∧
    ¬ List.Pairwise (fun a b => a ≠ b) (requestTimes 2 [5, 7]) := by
  have h : requestTimes 2 [5, 7] = [1000, 1000] := by decide
  refine ⟨by decide, h, ?_, ?_⟩
  · intro hch
    rw [h] at hch
    have h1 := (List.chain'_cons.mp hch).1
    have : RATE_LIMIT_MS = 1000 := rfl
    omega
  · intro hp
    rw [h] at hp
    exact (List.pairwise_cons.mp hp).1 1000 (by simp) rfl

/-- Claim C9 (amended): every call to the search provider is preceded by
the fixed `RATE_LIMIT_MS = 1000` ms delay before the request is issued
(every request instant is at least 1000 ms after its task starts,
whatever the concurrency limit), and with the configured
`ConcurrencyLimit = 1` consecutive provider calls are at least 1000 ms
apart; the delay alone, however, does not serialize provider calls when
the concurrency limit exceeds 1
(`rate_limit_not_serialized_counterexample`). -/
theorem rate_limit_delay_floor (lats : List Nat) :
    (∀ limit t, t ∈ requestTimes limit lats → RATE_LIMIT_MS ≤ t) ∧
    List.Chain' (fun a b => a + RATE_LIMIT_MS ≤ b)
      (requestTimes ConcurrencyLimit lats) := by
  constructor
  · intro limit t ht
    obtain ⟨s, _, rfl⟩ := List.mem_map.mp ht
    omega
  · show List.Chain' _ ((schedStarts (List.replicate 1 0) lats).map _)
    rw [List.chain'_map]
    exact (schedStarts_single_chain 0 lats).imp (fun a b h => by omega)

/-- Witness for the amended C9 at a concrete latency list. -/
theorem rate_limit_delay_floor_witness :
    RATE_LIMIT_MS ≤ 1000 ∧
    List.Chain' (fun a b => a + RATE_LIMIT_MS ≤ b)
      (requestTimes ConcurrencyLimit [5]) :=
  ⟨(rate_limit_delay_floor [5]).1 1 1000 (by decide),
   (rate_limit_delay_floor [5]).2⟩
